import Mathlib

/-!
Shallow embedding of the symbolic-algebra example of
`src/ch07dry/050OperatorsExample.ipynb.py`: the `Term` / `Expression` pair
with polymorphic construction, merge-based multiplication, flattening
addition and string rendering.

Modelling choices:
* Python dicts with string keys and integer values become insertion-ordered
  association lists `List (String × Int)`; dict equality "as a mapping"
  (insertion order disregarded) becomes pointwise equality of `dlookup`.
* Python values that can reach the `Term` constructor or the operators are
  collected in the inductive `PyVal`.  Coefficients are modelled as `Int`
  (every coefficient appearing in the notebook is an integer); a non-integer
  numeric literal is `PyVal.vfloat`, whose payload is never inspected — only
  its runtime type matters for the constructor dispatch.  Argument shapes
  that would store a non-integer coefficient, or a monomial keyed by
  non-strings (a list of integers in symbol position), are outside the
  string-keyed / integer-coefficient model and are mapped to an error.
* Python exceptions (`IndexError` from `args[0]`, `TypeError` from `zip`
  over a non-iterable) become `Except String`.
-/

namespace SymAlg

/-- A `Term` value: `self.data` (the monomial, a dict from symbol to
exponent, insertion ordered) and `self.coefficient`. -/
structure TermS where
  data : List (String × Int)
  coefficient : Int
deriving DecidableEq

/-- Python values that flow into `Term.__init__(*args)` and the operators:
an existing `Term`, an `int`, a `float` (payload irrelevant to dispatch),
a `str`, a dict from symbol to exponent, a list of symbols, or a list of
powers. -/
inductive PyVal where
  | vterm (t : TermS)
  | vint (n : Int)
  | vfloat (q : Rat)
  | vstr (s : String)
  | vdict (d : List (String × Int))
  | vlistS (l : List String)
  | vlistI (l : List Int)
deriving DecidableEq

/-- An `Expression` value: `self.terms`.  `Term.add` copies raw operands
into the sequence, so entries are arbitrary `PyVal`s, not only terms. -/
structure ExprS where
  terms : List PyVal
deriving DecidableEq

/-- Dict lookup `d[s]` on an insertion-ordered association list. -/
def dlookup : List (String × Int) → String → Option Int
  | [], _ => none
  | (k, v) :: rest, s => if k = s then some v else dlookup rest s

/-- Dict assignment `d[s] = v`: overwrite the entry in place when the key
is present, append a fresh entry otherwise (Python dict semantics). -/
def dictSet (d : List (String × Int)) (s : String) (v : Int) :
    List (String × Int) :=
  match d with
  | [] => [(s, v)]
  | (k, w) :: rest => if k = s then (k, v) :: rest else (k, w) :: dictSet rest s v

/-- The dict comprehension
`{symbol: exponent for symbol, exponent in zip(symbols, powers)}`:
`zip` truncates to the shorter sequence, later duplicates overwrite. -/
def zipDict (syms : List String) (pows : List Int) : List (String × Int) :=
  (syms.zip pows).foldl (fun d p => dictSet d p.1 p.2) []

/-- `result_data[symbol] += v` when the key is present: add `v` to the
entry in place, keeping its position. -/
def setAdd : List (String × Int) → String → Int → List (String × Int)
  | [], _, _ => []
  | (k, w) :: rest, s, v =>
      if k = s then (k, w + v) :: rest else (k, w) :: setAdd rest s v

/-- One inner-loop iteration of `Term.multiply`:
`if symbol in result_data: result_data[symbol] += exponent
 else: result_data[symbol] = exponent`. -/
def mergeStep (d : List (String × Int)) (s : String) (v : Int) :
    List (String × Int) :=
  if (dlookup d s).isSome then setAdd d s v else d ++ [(s, v)]

/-- The monomial merge performed by `Term.multiply`: fold the entries of
the second dict into (a copy of) the first with `mergeStep`. -/
def mergeDict (d1 d2 : List (String × Int)) : List (String × Int) :=
  d2.foldl (fun acc p => mergeStep acc p.1 p.2) d1

/-- `Term.__init__(self, *args)`: dispatch on the runtime type of
`args[0]` — copy constructor for a `Term`, `from_constant` for an `int`,
`from_symbol` for a `str`, `from_dictionary` for a dict, and `from_lists`
for everything else.  `from_lists` over a non-iterable lead (`float`)
raises `TypeError` from `zip`; extra-argument shapes not representable in
this model (non-integer coefficients, integer symbols) are also mapped to
`TypeError`, and no claim exercises them. -/
def termInit (args : List PyVal) : Except String TermS :=
  match args with
  | [] => .error "IndexError"
  | lead :: rest =>
    match lead, rest with
    | .vterm t, _ => .ok ⟨t.data, t.coefficient⟩
    | .vint n, _ => .ok ⟨[], n⟩
    | .vstr s, [] => .ok ⟨[(s, 1)], 1⟩
    | .vstr s, [.vint c] => .ok ⟨[(s, 1)], c⟩
    | .vstr s, [.vint c, .vint p] => .ok ⟨[(s, p)], c⟩
    | .vstr _, _ => .error "TypeError"
    | .vdict d, [] => .ok ⟨d, 1⟩
    | .vdict d, [.vint c] => .ok ⟨d, c⟩
    | .vdict _, _ => .error "TypeError"
    | .vfloat _, _ => .error "TypeError"
    | .vlistS syms, [] => .ok ⟨zipDict syms [], 1⟩
    | .vlistS syms, [.vlistI pows] => .ok ⟨zipDict syms pows, 1⟩
    | .vlistS syms, [.vlistI pows, .vint c] => .ok ⟨zipDict syms pows, c⟩
    | .vlistS _, _ => .error "TypeError"
    | .vlistI _, _ => .error "TypeError"

/-- `Expression.__init__(self, terms)`: `self.terms = list(terms)`.  In
this pure view the copy is the identity; the reference-level copy is
modelled separately by `exprInitH` for the mutation claim. -/
def exprInit (terms : List PyVal) : ExprS := ⟨terms⟩

/-- `Term.add(self, *others)`: `Expression((self,) + others)` — the
operands are stored as given, with no conversion. -/
def termAdd (t : TermS) (others : List PyVal) : ExprS :=
  exprInit (PyVal.vterm t :: others)

/-- `Term.__add__(self, other) = self.add(other)`. -/
def termAddOp (t : TermS) (o : PyVal) : ExprS := termAdd t [o]

/-- `Term.multiply(self, *others)`: convert each operand through the
`Term` constructor (`others = map(Term, others)`), then fold each
converted term's monomial into `result_data` with the merge loop and its
coefficient into `result_coeff`, and return
`Term(result_data, result_coeff)`. -/
def termMultiply (t : TermS) (others : List PyVal) : Except String TermS := do
  let ts ← others.mapM (fun o => termInit [o])
  let acc := ts.foldl
    (fun (acc : List (String × Int) × Int) a =>
      (mergeDict acc.1 a.data, acc.2 * a.coefficient))
    (t.data, t.coefficient)
  termInit [PyVal.vdict acc.1, PyVal.vint acc.2]

/-- `Term.__mul__(self, other) = self.multiply(other)`. -/
def termMul (t : TermS) (o : PyVal) : Except String TermS := termMultiply t [o]

/-- `Term.__rmul__(self, other) = self.__mul__(other)`. -/
def termRmul (t : TermS) (o : PyVal) : Except String TermS := termMul t o

/-- Evaluation of `n * t` for an `int` left operand and a `Term` right
operand: `int.__mul__` does not recognise `Term` and returns
`NotImplemented`, so Python falls back to `Term.__rmul__(t, n)`. -/
def intMulTerm (n : Int) (t : TermS) : Except String TermS :=
  termRmul t (PyVal.vint n)

/-- Operands accepted by `Expression.add`: a `Term` (appended) or an
`Expression` (its `terms` are spliced in). -/
inductive AddOp where
  | opTerm (t : TermS)
  | opExpr (e : ExprS)
deriving DecidableEq

/-- `Expression.add(self, *others)`: start from a copy of `self.terms`
(`Expression(self.terms)` copies via `list(...)`), then for each operand
append it when it is a `Term` and extend with its `terms` otherwise. -/
def exprAdd (e : ExprS) (others : List AddOp) : ExprS :=
  ⟨others.foldl
    (fun acc o =>
      match o with
      | .opTerm t => acc ++ [PyVal.vterm t]
      | .opExpr e2 => acc ++ e2.terms)
    (exprInit e.terms).terms⟩

/-- The contribution of one `Expression.add` operand to the result
sequence: a `Term` contributes itself, an `Expression` contributes its
term sequence. -/
def flatOp : AddOp → List PyVal
  | .opTerm t => [PyVal.vterm t]
  | .opExpr e => e.terms

/-- `Expression.multiply(self, another)`: the body is `pass`, so the call
completes normally and returns Python `None` — it never raises.  The
`Except` layer records that an exception channel exists but is unused. -/
def exprMultiply (_e : ExprS) (_another : AddOp) : Except String (Option ExprS) :=
  .ok none

/-- The helper `symbol_string(symbol, power)` of `Term.__str__`. -/
def symbolString (symbol : String) (power : Int) : String :=
  if power = 1 then symbol else symbol ++ "^" ++ toString power

/-- `Term.__str__`: join the symbol strings with `*`; if the joined
string is empty (`if not prod`) render the coefficient alone; if the
coefficient is 1 render the joined string; otherwise `coefficient*prod`. -/
def termStr (t : TermS) : String :=
  let prod := String.intercalate "*" (t.data.map fun p => symbolString p.1 p.2)
  if prod = "" then toString t.coefficient
  else if t.coefficient = 1 then prod
  else toString t.coefficient ++ "*" ++ prod

/-!
Reference-level model of `Expression.add` for the mutation claim: Python
lists live on a heap and an `Expression` holds a reference to its `terms`
list.  `Expression.__init__` copies its argument into a freshly allocated
list (`self.terms = list(terms)`), so the appends performed by `add` touch
only the fresh list.
-/

/-- A heap of Python lists; a list reference is an index into `lists`. -/
structure Heap where
  lists : List (List PyVal)
deriving DecidableEq

/-- An `Expression` object holding a reference to its `terms` list. -/
structure ExprRef where
  termsId : Nat
deriving DecidableEq

/-- Read the list at index `i` (Python list indexing). -/
def hget : List (List PyVal) → Nat → List PyVal
  | [], _ => []
  | l :: _, 0 => l
  | _ :: rest, n + 1 => hget rest n

/-- Replace the list at index `i` (Python list assignment). -/
def hset : List (List PyVal) → Nat → List PyVal → List (List PyVal)
  | [], _, _ => []
  | _ :: rest, 0, l => l :: rest
  | x :: rest, n + 1, l => x :: hset rest n l

/-- Dereference an expression's `terms` list. -/
def heapGet (h : Heap) (i : Nat) : List PyVal := hget h.lists i

/-- Overwrite an expression's `terms` list. -/
def heapSet (h : Heap) (i : Nat) (l : List PyVal) : Heap := ⟨hset h.lists i l⟩

/-- `Expression.__init__(self, terms)` at the reference level:
`self.terms = list(terms)` allocates a fresh list holding a copy of the
given elements and the new object references it. -/
def exprInitH (h : Heap) (terms : List PyVal) : Heap × ExprRef :=
  (⟨h.lists ++ [terms]⟩, ⟨h.lists.length⟩)

/-- Operands of `Expression.add` at the reference level. -/
inductive AddOpR where
  | opTerm (t : TermS)
  | opExpr (r : ExprRef)
deriving DecidableEq

/-- One loop iteration of `Expression.add`: `result.terms.append(another)`
for a `Term`, `result.terms += another.terms` for an `Expression`; both
mutate only the result's own list. -/
def exprAddStepH (resId : Nat) (h : Heap) (o : AddOpR) : Heap :=
  match o with
  | .opTerm t => heapSet h resId (heapGet h resId ++ [PyVal.vterm t])
  | .opExpr r => heapSet h resId (heapGet h resId ++ heapGet h r.termsId)

/-- `Expression.add(self, *others)` at the reference level:
`result = Expression(self.terms)` allocates a fresh copy of `self.terms`,
then each operand is appended or spliced into the fresh list. -/
def exprAddH (h : Heap) (self : ExprRef) (others : List AddOpR) :
    Heap × ExprRef :=
  let alloc := exprInitH h (heapGet h self.termsId)
  (others.foldl (exprAddStepH alloc.2.termsId) alloc.1, alloc.2)

/-- The term `Term('x')`. -/
def xTerm : TermS := ⟨[("x", 1)], 1⟩

/-- The term `Term('y')`. -/
def yTerm : TermS := ⟨[("y", 1)], 1⟩

/-- The term `Term(2)`. -/
def twoTerm : TermS := ⟨[], 2⟩

/-- The keys of a dict, in insertion order. -/
def dkeys (d : List (String × Int)) : List String := d.map Prod.fst

/-- Pointwise combination of two optional exponents: the exponent a symbol
receives from two monomials being merged, an absent symbol contributing
nothing. -/
def combineExp : Option Int → Option Int → Option Int
  | some x, some y => some (x + y)
  | some x, none => some x
  | none, some y => some y
  | none, none => none

/-- Rendering following the words of claim C7 as stated: the coefficient
stands alone exactly when the monomial is empty. -/
def renderMonomialEmptyTest (t : TermS) : String :=
  let prod := String.intercalate "*"
    (t.data.map fun p => if p.2 = 1 then p.1 else p.1 ++ "^" ++ toString p.2)
  if t.data = [] then toString t.coefficient
  else if t.coefficient = 1 then prod
  else toString t.coefficient ++ "*" ++ prod

/-- Rendering following the amended claim: the coefficient stands alone
exactly when the joined monomial string is empty (the source's
`if not prod`). -/
def renderProdEmptyTest (t : TermS) : String :=
  let prod := String.intercalate "*"
    (t.data.map fun p => if p.2 = 1 then p.1 else p.1 ++ "^" ++ toString p.2)
  if prod = "" then toString t.coefficient
  else if t.coefficient = 1 then prod
  else toString t.coefficient ++ "*" ++ prod

/-! ### Lemmas about dict lookup and the merge loop -/

theorem dlookup_append (d1 d2 : List (String × Int)) (t : String) :
    dlookup (d1 ++ d2) t =
      match dlookup d1 t with
      | some v => some v
      | none => dlookup d2 t := by
  induction d1 with
  | nil => rfl
  | cons p rest ih =>
    obtain ⟨k, v⟩ := p
    by_cases hk : k = t
    · simp [dlookup, hk]
    · simp [dlookup, hk, ih]

theorem dlookup_setAdd (d : List (String × Int)) (s : String) (v w : Int)
    (hd : dlookup d s = some w) (t : String) :
    dlookup (setAdd d s v) t = if t = s then some (w + v) else dlookup d t := by
  induction d with
  | nil => simp [dlookup] at hd
  | cons p rest ih =>
    obtain ⟨k, u⟩ := p
    by_cases hk : k = s
    · subst hk
      rw [dlookup, if_pos rfl] at hd
      injection hd with hd
      subst hd
      by_cases ht : t = k
      · subst ht
        simp [setAdd, dlookup]
      · have hkt : ¬ k = t := fun h => ht h.symm
        simp [setAdd, dlookup, ht, hkt]
    · rw [dlookup, if_neg hk] at hd
      by_cases ht : t = k
      · subst ht
        have hts : ¬ t = s := fun h => hk h
        simp [setAdd, dlookup, hk, hts]
      · have hkt : ¬ k = t := fun h => ht h.symm
        simp [setAdd, dlookup, hk, hkt, ih hd]

theorem dlookup_mergeStep (d : List (String × Int)) (s : String) (v : Int)
    (t : String) :
    dlookup (mergeStep d s v) t =
      if t = s then combineExp (dlookup d s) (some v) else dlookup d t := by
  unfold mergeStep
  cases hd : dlookup d s with
  | some w =>
    rw [if_pos (by simp)]
    rw [dlookup_setAdd d s v w hd t]
    by_cases ht : t = s <;> simp [ht, hd, combineExp]
  | none =>
    rw [if_neg (by simp)]
    rw [dlookup_append]
    by_cases ht : t = s
    · subst ht
      rw [hd]
      simp [dlookup, combineExp]
    · have hst : ¬ s = t := fun h => ht h.symm
      cases hl : dlookup d t <;> simp [dlookup, ht, hst, combineExp]

theorem dkeys_setAdd (d : List (String × Int)) (s : String) (v : Int) :
    dkeys (setAdd d s v) = dkeys d := by
  induction d with
  | nil => rfl
  | cons p rest ih =>
    obtain ⟨k, u⟩ := p
    by_cases hk : k = s
    · simp [setAdd, dkeys, hk]
    · simpa [setAdd, dkeys, hk] using ih

theorem dlookup_eq_none_iff (d : List (String × Int)) (s : String) :
    dlookup d s = none ↔ s ∉ dkeys d := by
  induction d with
  | nil => simp [dlookup, dkeys]
  | cons p rest ih =>
    obtain ⟨k, u⟩ := p
    by_cases hk : k = s
    · subst hk
      simp [dlookup, dkeys]
    · have hsk : ¬ s = k := fun h => hk h.symm
      simp [dlookup, dkeys, hk, ih, hsk]

theorem dkeys_mergeStep_nodup (d : List (String × Int)) (s : String) (v : Int)
    (hd : (dkeys d).Nodup) : (dkeys (mergeStep d s v)).Nodup := by
  unfold mergeStep
  cases hl : dlookup d s with
  | some w =>
    rw [if_pos (by simp)]
    simpa [dkeys_setAdd] using hd
  | none =>
    rw [if_neg (by simp)]
    have hs : s ∉ dkeys d := (dlookup_eq_none_iff d s).mp hl
    have hkeys : dkeys (d ++ [(s, v)]) = dkeys d ++ [s] := by simp [dkeys]
    rw [hkeys, List.nodup_append]
    refine ⟨hd, List.nodup_singleton s, ?_⟩
    intro x hx hmem
    rw [List.mem_singleton] at hmem
    subst hmem
    exact hs hx

theorem dkeys_mergeDict_nodup (d1 d2 : List (String × Int))
    (h1 : (dkeys d1).Nodup) : (dkeys (mergeDict d1 d2)).Nodup := by
  induction d2 generalizing d1 with
  | nil => simpa [mergeDict] using h1
  | cons p rest ih =>
    simpa [mergeDict] using
      ih (mergeStep d1 p.1 p.2) (dkeys_mergeStep_nodup d1 p.1 p.2 h1)

theorem dlookup_mergeDict (d1 d2 : List (String × Int))
    (h2 : (dkeys d2).Nodup) (t : String) :
    dlookup (mergeDict d1 d2) t = combineExp (dlookup d1 t) (dlookup d2 t) := by
  induction d2 generalizing d1 with
  | nil => cases h : dlookup d1 t <;> simp [mergeDict, combineExp, h, dlookup]
  | cons p rest ih =>
    obtain ⟨s, v⟩ := p
    have hcons : s ∉ dkeys rest ∧ (dkeys rest).Nodup := by
      have := h2
      simp only [dkeys, List.map_cons] at this
      exact List.nodup_cons.mp this
    have hnone : dlookup rest s = none := (dlookup_eq_none_iff rest s).mpr hcons.1
    have hfold : mergeDict d1 ((s, v) :: rest) = mergeDict (mergeStep d1 s v) rest := by
      simp [mergeDict]
    rw [hfold, ih (mergeStep d1 s v) hcons.2, dlookup_mergeStep]
    by_cases ht : t = s
    · subst ht
      rw [hnone, if_pos rfl]
      have : dlookup ((t, v) :: rest) t = some v := by simp [dlookup]
      rw [this]
      cases dlookup d1 t <;> simp [combineExp]
    · rw [if_neg ht]
      have hst : ¬ s = t := fun h => ht h.symm
      have : dlookup ((s, v) :: rest) t = dlookup rest t := by
        simp [dlookup, hst]
      rw [this]

theorem combineExp_comm (a b : Option Int) : combineExp a b = combineExp b a := by
  cases a <;> cases b <;> simp [combineExp, Int.add_comm]

theorem combineExp_assoc (a b c : Option Int) :
    combineExp (combineExp a b) c = combineExp a (combineExp b c) := by
  cases a <;> cases b <;> cases c <;> simp [combineExp, Int.add_assoc]

/-! ### Lemmas about the zipped dict comprehension -/

theorem dictSet_length_le (d : List (String × Int)) (s : String) (v : Int) :
    (dictSet d s v).length ≤ d.length + 1 := by
  induction d with
  | nil => simp [dictSet]
  | cons p rest ih =>
    obtain ⟨k, u⟩ := p
    by_cases hk : k = s
    · simp [dictSet, hk]
    · simp only [dictSet, if_neg hk, List.length_cons]
      omega

theorem foldl_dictSet_length_le (l : List (String × Int)) :
    ∀ d : List (String × Int),
      (l.foldl (fun acc p => dictSet acc p.1 p.2) d).length ≤
        d.length + l.length := by
  induction l with
  | nil =>
    intro d
    simp
  | cons p rest ih =>
    intro d
    have h1 := ih (dictSet d p.1 p.2)
    have h2 := dictSet_length_le d p.1 p.2
    simp only [List.foldl_cons, List.length_cons]
    omega

theorem zipDict_length_le (syms : List String) (pows : List Int) :
    (zipDict syms pows).length ≤ min syms.length pows.length := by
  have h := foldl_dictSet_length_le (syms.zip pows) []
  simpa [zipDict, List.length_zip] using h

/-! ### Lemmas about the flattening fold of `Expression.add` -/

theorem exprAdd_foldl (others : List AddOp) :
    ∀ acc : List PyVal,
      others.foldl
        (fun acc o =>
          match o with
          | .opTerm t => acc ++ [PyVal.vterm t]
          | .opExpr e2 => acc ++ e2.terms) acc
        = acc ++ (others.map flatOp).flatten := by
  induction others with
  | nil =>
    intro acc
    simp
  | cons o rest ih =>
    intro acc
    cases o with
    | opTerm t => simp [flatOp, ih]
    | opExpr e2 => simp [flatOp, ih]

/-! ### Lemmas about the reference-level heap -/

theorem hget_hset_ne (ls : List (List PyVal)) :
    ∀ (i j : Nat) (l : List PyVal), i ≠ j → hget (hset ls j l) i = hget ls i := by
  induction ls with
  | nil =>
    intro i j l _
    rfl
  | cons x rest ih =>
    intro i j l hij
    cases j with
    | zero =>
      cases i with
      | zero => exact absurd rfl hij
      | succ i => rfl
    | succ j =>
      cases i with
      | zero => rfl
      | succ i =>
        simpa [hset, hget] using ih i j l (fun h => hij (by omega))

theorem hget_append_lt (ls : List (List PyVal)) :
    ∀ (i : Nat) (l : List PyVal), i < ls.length → hget (ls ++ [l]) i = hget ls i := by
  induction ls with
  | nil =>
    intro i l hi
    simp at hi
  | cons x rest ih =>
    intro i l hi
    cases i with
    | zero => rfl
    | succ i =>
      simpa [hget] using ih i l (by simpa using hi)

theorem exprAddFold_preserves (resId : Nat) (others : List AddOpR) :
    ∀ (h : Heap) (i : Nat), i ≠ resId →
      heapGet (others.foldl (exprAddStepH resId) h) i = heapGet h i := by
  induction others with
  | nil =>
    intro h i _
    rfl
  | cons o rest ih =>
    intro h i hi
    have hstep : heapGet (exprAddStepH resId h o) i = heapGet h i := by
      cases o with
      | opTerm t => exact hget_hset_ne h.lists i resId _ hi
      | opExpr r => exact hget_hset_ne h.lists i resId _ hi
    simp only [List.foldl_cons]
    rw [ih (exprAddStepH resId h o) i hi, hstep]

/-! ### Claim theorems -/

/-- Claim C1, counterexample: `Expression([]).multiply(Term('x'))` completes
normally and returns `None` — the `pass` body never raises, so the claim
that every call fails with a `NotImplemented` error is false on the code. -/
theorem exprMultiply_never_raises_cex :
    exprMultiply ⟨[]⟩ (AddOp.opTerm xTerm) = Except.ok none := rfl

/-- Claim C1 (amended): for every Expression `e` and every operand `a`,
`Expression.multiply(e, a)` completes normally and returns `None` (a null
result); no `NotImplemented` error is reported to the caller. -/
theorem exprMultiply_returns_none (e : ExprS) (a : AddOp) :
    exprMultiply e a = Except.ok none := rfl

/-- Claim C2, counterexample: `Term(['x','y'], [2])` has parallel sequences
of unequal length (2 symbols, 1 power), yet construction succeeds and
produces the Term with monomial `{x: 2}` and coefficient 1 — `zip`
truncates, and no `ShapeMismatch` error exists in the source. -/
theorem term_from_lists_unequal_cex :
    termInit [PyVal.vlistS ["x", "y"], PyVal.vlistI [2]] =
      Except.ok ⟨[("x", 2)], 1⟩ := rfl

/-- Claim C2 (amended): Term construction from parallel sequences of
symbols and powers of any (possibly unequal) lengths succeeds, zipping the
sequences with truncation to the shorter one: the resulting monomial pairs
at most `min` of the two lengths of entries, and no error is reported. -/
theorem term_from_lists_truncates (syms : List String) (pows : List Int)
    (c : Int) :
    termInit [PyVal.vlistS syms, PyVal.vlistI pows, PyVal.vint c] =
      Except.ok ⟨zipDict syms pows, c⟩ ∧
    (zipDict syms pows).length ≤ min syms.length pows.length :=
  ⟨rfl, zipDict_length_le syms pows⟩

/-- Claim C3, counterexample: `Term(5, ['x','y'], [2,1])` dispatches on its
integer lead to `from_constant(5)`, ignoring the list arguments, so it is
the constant Term 5; multiplying it by `Term('x')` gives monomial `{x: 1}`
— the symbol `y` is absent and `x` has exponent 1, not the claimed
`{x: 3, y: 1}`. -/
theorem term_int_lead_multiply_cex :
    termInit [PyVal.vint 5, PyVal.vlistS ["x", "y"], PyVal.vlistI [2, 1]] =
      Except.ok ⟨[], 5⟩ ∧
    termInit [PyVal.vstr "x"] = Except.ok xTerm ∧
    termMultiply ⟨[], 5⟩ [PyVal.vterm xTerm] = Except.ok ⟨[("x", 1)], 5⟩ ∧
    dlookup [("x", 1)] "y" = none ∧
    dlookup [("x", 1)] "x" = some 1 :=
  ⟨rfl, rfl, rfl, rfl, rfl⟩

/-- Claim C3 (amended): with the source's `from_lists` argument order
(symbols, powers, coefficient), `Term(['x','y'], [2,1], 5).multiply(Term('x'))`
has monomial mapping `{x: 3, y: 1}` and coefficient 5. -/
theorem term_lists_multiply :
    termInit [PyVal.vlistS ["x", "y"], PyVal.vlistI [2, 1], PyVal.vint 5] =
      Except.ok ⟨[("x", 2), ("y", 1)], 5⟩ ∧
    termInit [PyVal.vstr "x"] = Except.ok xTerm ∧
    termMultiply ⟨[("x", 2), ("y", 1)], 5⟩ [PyVal.vterm xTerm] =
      Except.ok ⟨[("x", 3), ("y", 1)], 5⟩ ∧
    dlookup [("x", 3), ("y", 1)] "x" = some 3 ∧
    dlookup [("x", 3), ("y", 1)] "y" = some 1 :=
  ⟨rfl, rfl, rfl, rfl, rfl⟩

/-- Claim C4, counterexample: `5 * Term('x')` is the Term with monomial
`{x: 1}` and coefficient 5, but `Term(5, {'x':1})` dispatches on its
integer lead to `from_constant(5)`, ignoring the dict, and is the constant
Term 5 — so the claimed equality with `Term(5, {'x':1})` fails. -/
theorem rmul_dict_form_cex :
    termInit [PyVal.vstr "x"] = Except.ok xTerm ∧
    intMulTerm 5 xTerm = Except.ok ⟨[("x", 1)], 5⟩ ∧
    termInit [PyVal.vint 5, PyVal.vdict [("x", 1)]] = Except.ok ⟨[], 5⟩ ∧
    TermS.mk [("x", 1)] 5 ≠ TermS.mk [] 5 :=
  ⟨rfl, rfl, rfl, by decide⟩

/-- Claim C4 (amended): multiplication is symmetric over mixed operand
kinds — a non-Term left operand falls back to the reflected
`Term.__rmul__`, which forwards to `Term.__mul__` — and `5 * Term('x')`
and `Term('x') * 5` produce the same Term, equal to `Term({'x':1}, 5)`
(the dict-form constructor, coefficient second). -/
theorem mul_reflected_symmetric :
    (∀ (t : TermS) (o : PyVal), termRmul t o = termMul t o) ∧
    termInit [PyVal.vstr "x"] = Except.ok xTerm ∧
    intMulTerm 5 xTerm = Except.ok ⟨[("x", 1)], 5⟩ ∧
    termMul xTerm (PyVal.vint 5) = Except.ok ⟨[("x", 1)], 5⟩ ∧
    termInit [PyVal.vdict [("x", 1)], PyVal.vint 5] =
      Except.ok ⟨[("x", 1)], 5⟩ :=
  ⟨fun _ _ => rfl, rfl, rfl, rfl, rfl⟩

/-- Claim C5: the monomial merge performed during `Term.multiply` is
commutative and associative as a mapping (insertion order disregarded,
i.e. up to pointwise equality of `dlookup`), for all monomials — dicts
whose keys are unique. -/
theorem mergeDict_comm_assoc (m1 m2 m3 : List (String × Int))
    (h1 : (dkeys m1).Nodup) (h2 : (dkeys m2).Nodup) (h3 : (dkeys m3).Nodup) :
    (∀ t, dlookup (mergeDict m1 m2) t = dlookup (mergeDict m2 m1) t) ∧
    (∀ t, dlookup (mergeDict (mergeDict m1 m2) m3) t =
      dlookup (mergeDict m1 (mergeDict m2 m3)) t) := by
  constructor
  · intro t
    rw [dlookup_mergeDict m1 m2 h2 t, dlookup_mergeDict m2 m1 h1 t,
        combineExp_comm]
  · intro t
    rw [dlookup_mergeDict (mergeDict m1 m2) m3 h3 t,
        dlookup_mergeDict m1 m2 h2 t,
        dlookup_mergeDict m1 (mergeDict m2 m3) (dkeys_mergeDict_nodup m2 m3 h2) t,
        dlookup_mergeDict m2 m3 h3 t,
        combineExp_assoc]

/-- Witness for C5 at the monomials `{x:1}`, `{x:2, y:3}`, `{z:4}`. -/
theorem mergeDict_comm_assoc_witness :
    (dkeys [("x", 1)]).Nodup ∧ (dkeys [("x", 2), ("y", 3)]).Nodup ∧
    (dkeys [("z", 4)]).Nodup ∧
    dlookup (mergeDict [("x", 1)] [("x", 2), ("y", 3)]) "x" =
      dlookup (mergeDict [("x", 2), ("y", 3)] [("x", 1)]) "x" :=
  ⟨by decide, by decide, by decide,
    (mergeDict_comm_assoc [("x", 1)] [("x", 2), ("y", 3)] [("z", 4)]
      (by decide) (by decide) (by decide)).1 "x"⟩

/-- Claim C6, counterexample: a non-integer numeric lead such as `2.5`
fails the `type(lead) == int` test, falls into the `from_lists` branch,
and raises `TypeError` from `zip` over a non-iterable — no constant Term
is built, so the claim fails for real constants. -/
theorem term_float_lead_cex :
    termInit [PyVal.vfloat (5 / 2)] = Except.error "TypeError" := rfl

/-- Claim C6 (amended): for every integer constant `n`, Term construction
with leading argument `n` builds a constant Term with empty monomial and
coefficient `n` (any further arguments are ignored); a non-integer numeric
lead instead raises `TypeError` via the `from_lists` fallback. -/
theorem term_int_constant (n : Int) (rest : List PyVal) :
    termInit (PyVal.vint n :: rest) = Except.ok ⟨[], n⟩ := rfl

/-- Claim C7, counterexample: for the Term built by `Term('')` — monomial
`{'': 1}`, coefficient 1 — the joined monomial string is empty although
the monomial is not, so the code renders the coefficient (`"1"`), while
the claim's case order (coefficient alone only when the monomial is
empty) yields the empty string. -/
theorem termStr_empty_symbol_cex :
    termInit [PyVal.vstr ""] = Except.ok ⟨[("", 1)], 1⟩ ∧
    termStr ⟨[("", 1)], 1⟩ = "1" ∧
    renderMonomialEmptyTest ⟨[("", 1)], 1⟩ = "" ∧
    ("1" : String) ≠ "" :=
  ⟨rfl, rfl, rfl, by decide⟩

/-- Claim C7 (amended): rendering a Term produces, for each
(symbol, exponent) pair in iteration order, `symbol` when the exponent is
1 and `symbol^exponent` otherwise, joined with `*`; if the joined monomial
string is empty (the monomial is empty, or its sole entry is the empty
symbol with exponent 1) the rendering is the coefficient alone; otherwise
if the coefficient is exactly 1 the rendering is the joined string, else
`coefficient*<joined string>`; in particular the Term with coefficient 5
and monomial `{x:2, y:1}` renders as `"5*x^2*y"`. -/
theorem termStr_renders :
    (∀ t : TermS, termStr t = renderProdEmptyTest t) ∧
    termStr ⟨[("x", 2), ("y", 1)], 5⟩ = "5*x^2*y" :=
  ⟨fun _ => rfl, rfl⟩

/-- Claim C8: `Expression.add` returns an Expression whose term sequence
is the receiver's terms followed, in argument order, by each Term operand
and the flattened terms of each Expression operand, with no merging; in
particular `Expression([Term('x')]).add(Expression([Term('y'), Term(2)]))`
has exactly the three terms `x, y, 2` in order. -/
theorem exprAdd_flattening :
    (∀ (e : ExprS) (others : List AddOp),
      (exprAdd e others).terms = e.terms ++ (others.map flatOp).flatten) ∧
    termInit [PyVal.vstr "x"] = Except.ok xTerm ∧
    termInit [PyVal.vstr "y"] = Except.ok yTerm ∧
    termInit [PyVal.vint 2] = Except.ok twoTerm ∧
    (exprAdd (exprInit [PyVal.vterm xTerm])
        [AddOp.opExpr (exprInit [PyVal.vterm yTerm, PyVal.vterm twoTerm])]).terms =
      [PyVal.vterm xTerm, PyVal.vterm yTerm, PyVal.vterm twoTerm] :=
  ⟨fun e others => exprAdd_foldl others e.terms, rfl, rfl, rfl, rfl⟩

/-- Claim C9: at the reference level, `Expression.add` never mutates its
receiver or any Expression operand — the result is a freshly allocated
list (its reference equals the next free heap index), and after the call
the receiver's and every operand's term sequences are unchanged. -/
theorem exprAdd_no_mutation (h : Heap) (self : ExprRef) (others : List AddOpR)
    (hself : self.termsId < h.lists.length)
    (hops : ∀ r : ExprRef, AddOpR.opExpr r ∈ others →
      r.termsId < h.lists.length) :
    (exprAddH h self others).2.termsId = h.lists.length ∧
    heapGet (exprAddH h self others).1 self.termsId =
      heapGet h self.termsId ∧
    ∀ r : ExprRef, AddOpR.opExpr r ∈ others →
      heapGet (exprAddH h self others).1 r.termsId = heapGet h r.termsId := by
  refine ⟨rfl, ?_, ?_⟩
  · have hne : self.termsId ≠ h.lists.length := Nat.ne_of_lt hself
    have hpres := exprAddFold_preserves h.lists.length others
      ⟨h.lists ++ [heapGet h self.termsId]⟩ self.termsId hne
    have halloc : heapGet (⟨h.lists ++ [heapGet h self.termsId]⟩ : Heap)
        self.termsId = heapGet h self.termsId :=
      hget_append_lt h.lists self.termsId (heapGet h self.termsId) hself
    exact hpres.trans halloc
  · intro r hr
    have hlt := hops r hr
    have hne : r.termsId ≠ h.lists.length := Nat.ne_of_lt hlt
    have hpres := exprAddFold_preserves h.lists.length others
      ⟨h.lists ++ [heapGet h self.termsId]⟩ r.termsId hne
    have halloc : heapGet (⟨h.lists ++ [heapGet h self.termsId]⟩ : Heap)
        r.termsId = heapGet h r.termsId :=
      hget_append_lt h.lists r.termsId (heapGet h self.termsId) hlt
    exact hpres.trans halloc

/-- Witness for C9: a one-list heap, with the expression added to itself. -/
theorem exprAdd_no_mutation_witness :
    (ExprRef.mk 0).termsId < (Heap.mk [[PyVal.vint 7]]).lists.length ∧
    heapGet (exprAddH ⟨[[PyVal.vint 7]]⟩ ⟨0⟩ [AddOpR.opExpr ⟨0⟩]).1
        (ExprRef.mk 0).termsId =
      heapGet ⟨[[PyVal.vint 7]]⟩ (ExprRef.mk 0).termsId :=
  ⟨by decide,
    (exprAdd_no_mutation ⟨[[PyVal.vint 7]]⟩ ⟨0⟩ [AddOpR.opExpr ⟨0⟩] (by decide)
      (fun r hr => by
        rw [List.mem_singleton] at hr
        injection hr with hr2
        subst hr2
        decide)).2.1⟩

/-- Claim C10: `Term.add` stores non-Term operands as given — for every
Term `t` and string `s`, `t + s` is an Expression whose second entry is
the raw string `s` itself — unlike `Term.multiply`, which converts a
string operand through the `Term` constructor before merging. -/
theorem termAdd_keeps_raw_operands :
    (∀ (t : TermS) (s : String),
      (termAddOp t (PyVal.vstr s)).terms = [PyVal.vterm t, PyVal.vstr s]) ∧
    (termAddOp xTerm (PyVal.vstr "y")).terms[1]? = some (PyVal.vstr "y") ∧
    termMultiply xTerm [PyVal.vstr "y"] = Except.ok ⟨[("x", 1), ("y", 1)], 1⟩ :=
  ⟨fun _ _ => rfl, rfl, rfl⟩

end SymAlg
